import Mathlib

/-!
# Verification of the anki-decks deck-augmentation pipeline

A shallow embedding of the core of `augment_notes.py` and
`augment_deck.py` (container codec, schema resolver, record selector,
generation orchestrator, write-back applier), together with proofs of the
behavioural properties stated in the repository's specification.

External collaborators (the Gemini generation service, the `markdown`
converter, the zstd codec) are modelled as function parameters, exactly as
the spec treats them: black boxes.
-/

set_option autoImplicit false

namespace AnkiDecks

/-- The Anki field separator, U+001F: a note's field values are stored as a
single string joined with this character (`flds.split("\x1f")` /
`"\x1f".join(parts)` in the source). -/
def FIELD_SEP : Char := '\x1f'

/-- Python `str.strip()`: drop whitespace from both ends of a string.
(Modelled with `Char.isWhitespace`, which covers the ASCII whitespace that
occurs in the data handled by the pipeline.) -/
def py_strip (s : String) : String :=
  ⟨((s.data.dropWhile Char.isWhitespace).reverse.dropWhile Char.isWhitespace).reverse⟩

/-- Character-level split on `FIELD_SEP`, keeping empty pieces: the semantics
of Python `str.split("\x1f")` for the single-character separator. -/
def split_fld_chars : List Char → List (List Char)
  | [] => [[]]
  | c :: rest =>
    if c = FIELD_SEP then [] :: split_fld_chars rest
    else
      match split_fld_chars rest with
      | [] => [[c]]
      | p :: ps => (c :: p) :: ps

/-- Character-level join with `FIELD_SEP`: Python `"\x1f".join`. -/
def join_fld_chars : List (List Char) → List Char
  | [] => []
  | [p] => p
  | p :: ps => p ++ FIELD_SEP :: join_fld_chars ps

/-- `flds.split("\x1f")`. -/
def split_flds (s : String) : List String :=
  (split_fld_chars s.data).map (fun p => ⟨p⟩)

/-- `"\x1f".join(parts)`. -/
def join_flds (parts : List String) : String :=
  ⟨join_fld_chars (parts.map String.data)⟩

/-- One row of the `notes` table, restricted to the columns the pipeline
reads or writes (`id`, `mid`, `flds`, `mod`); `mid` stands in for all columns
the `UPDATE` statement does not mention. -/
structure NoteRow where
  id : Nat
  mid : Nat
  flds : String
  mod : Int
deriving DecidableEq

/-- One entry of the decoded legacy `models` JSON blob. -/
structure NoteTypeModel where
  name : String
  flds : List String
deriving DecidableEq

/-- The working collection database, restricted to what the pipeline touches.
`notetypes = none` models a legacy-generation database in which the
`notetypes` table does not exist (querying it raises
`sqlite3.OperationalError`); `col_models` is the JSON `models` blob of the
`col` table in decoded form (`none`: row absent, value empty, or undecodable
JSON; the integer keys stand for the `int(mid)` parse of the blob's keys).
The `col` table itself is present in both schema generations. -/
structure AnkiDb where
  notetypes : Option (List (Nat × String))
  col_models : Option (List (Nat × NoteTypeModel))
  fields : List (Nat × String × Nat)
  notes : List NoteRow
deriving DecidableEq

/-- Raw file contents, as a byte list. -/
abbrev ByteData := List Nat

/-- A directory or zip archive: named files with raw contents. -/
abbrev FileTree := List (String × ByteData)

/-- Write a file into a directory: replace any existing entry named `k`. -/
def set_entry (d : FileTree) (k : String) (v : ByteData) : FileTree :=
  (k, v) :: d.filter (fun e => e.1 != k)

namespace AugmentNotes

/-- `sqlite3` errors that the scripts do not catch. -/
inductive SqlError
  | operationalError
deriving DecidableEq

/-- `augment_notes.get_model_id_from_name`: resolve a model name by querying
`SELECT id, name FROM notetypes` and returning the first exact match.  There
is no fallback in this script: on a legacy database without that table the
query raises `sqlite3.OperationalError`, which the function does not catch. -/
def get_model_id_from_name (db : AnkiDb) (model_name : String) :
    Except SqlError (Option Nat) :=
  match db.notetypes with
  | none => .error .operationalError
  | some rows => .ok ((rows.find? (fun r => r.2 == model_name)).map (fun r => r.1))

/-- A field-name → positional-index map for one note type. -/
abbrev FieldMap := List (String × Nat)

/-- `augment_notes.get_field_map`: `SELECT name, ord FROM fields WHERE ntid=?`,
collected into a name → index mapping (field names are unique per note type,
so first-match lookup agrees with the Python dict). -/
def get_field_map (db : AnkiDb) (ntid : Nat) : FieldMap :=
  (db.fields.filter (fun r => r.1 == ntid)).map (fun r => (r.2.1, r.2.2))

/-- Python `\w` on the data handled here: ASCII letters, digits, underscore. -/
def is_word_char (c : Char) : Bool :=
  c.isAlphanum || c = '_'

/-- The scan of `re.findall(r'\x7b(\w+)\x7d', prompt_template)`: every
non-overlapping occurrence of an opening brace, a nonempty maximal run of
word characters, and a closing brace, left to right.  The fuel argument only
bounds the recursion; it is initialized to the list length, which every
recursive call keeps sufficient (each call drops at least one character). -/
def scan_placeholders : Nat → List Char → List String
  | 0, _ => []
  | _ + 1, [] => []
  | fuel + 1, c :: rest =>
    if c = '\x7b' then
      match rest.dropWhile is_word_char with
      | '\x7d' :: tail =>
        if rest.takeWhile is_word_char = [] then scan_placeholders fuel rest
        else ⟨rest.takeWhile is_word_char⟩ :: scan_placeholders fuel tail
      | _ => scan_placeholders fuel rest
    else scan_placeholders fuel rest

/-- `augment_notes.extract_required_fields`. -/
def extract_required_fields (prompt_template : String) : List String :=
  scan_placeholders prompt_template.data.length prompt_template.data

/-- The external generation service: prompt in, response text out; `none`
models the API call raising an exception. -/
abbrev GenClient := String → Option String

/-- `augment_notes.generate_content`: call the service, strip the response
and convert it from Markdown to HTML (`md` is the external
`markdown.markdown`); any exception yields `""`. -/
def generate_content (client : GenClient) (md : String → String)
    (prompt : String) : String :=
  match client prompt with
  | some text => md (py_strip text)
  | none => ""

/-- `str.format` restricted to the placeholder shapes the prompt templates
use: `\x7b\x7b` / `\x7d\x7d` escape to a literal brace, `\x7bName\x7d` is
replaced by the context value of `Name`, a placeholder missing from the
context is a `KeyError` (`none`; the only error the caller catches), and a
stray unmatched brace (a `ValueError` in Python) is also mapped to `none`. -/
def format_chars : Nat → List Char → List (String × String) → Option (List Char)
  | 0, _, _ => none
  | _ + 1, [], _ => some []
  | fuel + 1, '\x7b' :: '\x7b' :: rest, ctx =>
    (format_chars fuel rest ctx).map (fun r => '\x7b' :: r)
  | fuel + 1, '\x7d' :: '\x7d' :: rest, ctx =>
    (format_chars fuel rest ctx).map (fun r => '\x7d' :: r)
  | fuel + 1, '\x7b' :: rest, ctx =>
    match rest.dropWhile (fun c => c != '\x7d') with
    | '\x7d' :: tail =>
      match ctx.lookup ⟨rest.takeWhile (fun c => c != '\x7d')⟩ with
      | some v => (format_chars fuel tail ctx).map (fun r => v.data ++ r)
      | none => none
    | _ => none
  | _ + 1, '\x7d' :: _, _ => none
  | fuel + 1, c :: rest, ctx => (format_chars fuel rest ctx).map (fun r => c :: r)

/-- `prompt_template.format(**context)`. -/
def py_format (template : String) (ctx : List (String × String)) : Option String :=
  (format_chars template.data.length template.data ctx).map (fun cs => ⟨cs⟩)

/-- `max(field_map.values())`: the largest positional index of the note
type's field map (the callers reach this only with a non-empty map, where the
fold below agrees with Python's `max`). -/
def max_fm_index (fm : FieldMap) : Nat :=
  (fm.map Prod.snd).foldl Nat.max 0

/-- The padding loop of `process_note_file`:
`while len(parts) <= max_idx: parts.append("")`. -/
def pad_parts (parts : List String) (max_idx : Nat) : List String :=
  parts ++ List.replicate (max_idx + 1 - parts.length) ""

/-- The context-building loop of `process_note_file`: pair each required
field with its positional value; `none` when a required field is missing
from the field map (the `missing_field` early return). -/
def build_context (required_fields : List String) (field_map : FieldMap)
    (parts : List String) : Option (List (String × String)) :=
  match required_fields with
  | [] => some []
  | f :: fs =>
    match field_map.lookup f with
    | some i => (build_context fs field_map parts).map (fun ctx => (f, parts.getD i "") :: ctx)
    | none => none

/-- The field-rewriting core of `augment_notes.process_note_file`: the new
positional value array (the padded parts with the generated content at the
target index), or `none` when the record is skipped (target missing,
already filled, required field missing, `KeyError` while formatting, or
empty generated content). -/
def process_note_parts (client : GenClient) (md : String → String)
    (parts : List String) (field_map : FieldMap) (target_field : String)
    (prompt_template : String) (required_fields : List String) :
    Option (List String) :=
  match field_map.lookup target_field with
  | none => none
  | some target_idx =>
    if py_strip ((pad_parts parts (max_fm_index field_map)).getD target_idx "") = "" then
      match build_context required_fields field_map (pad_parts parts (max_fm_index field_map)) with
      | none => none
      | some context =>
        match py_format prompt_template context with
        | none => none
        | some filled_prompt =>
          if generate_content client md filled_prompt = "" then none
          else some ((pad_parts parts (max_fm_index field_map)).set target_idx
            (generate_content client md filled_prompt))
    else none

/-- One element of the collected update set:
`(new_flds, int(time.time()), nid)`. -/
structure Update where
  flds : String
  mod : Int
  nid : Nat
deriving DecidableEq

/-- `augment_notes.process_note_file`: split the record's field string, fill
the empty target field with the generated content, and return the update
row, or `none` when the record is skipped or its generation failed. -/
def process_note_file (client : GenClient) (md : String → String) (now : Int)
    (nid : Nat) (flds : String) (field_map : FieldMap) (target_field : String)
    (prompt_template : String) (required_fields : List String) : Option Update :=
  (process_note_parts client md (split_flds flds) field_map target_field
      prompt_template required_fields).map
    (fun parts => { flds := join_flds parts, mod := now, nid := nid })

/-- The pending test of `process_deck_file`:
`len(parts) <= target_idx or not parts[target_idx].strip()`. -/
def pending_pred (flds : String) (target_idx : Nat) : Bool :=
  (split_flds flds).length ≤ target_idx ||
    py_strip ((split_flds flds).getD target_idx "") == ""

/-- The record-selection loop of `process_deck_file`: keep the `(id, flds)`
rows whose target field is absent or trims to empty, in their original
order. -/
def select_pending (rows : List (Nat × String)) (target_idx : Nat) :
    List (Nat × String) :=
  rows.filter (fun r => pending_pred r.2 target_idx)

/-- The fatal configuration errors of `process_deck_file` (each is a printed
message followed by `sys.exit(1)`), together with an uncaught sqlite error. -/
inductive RunError
  | sqlError
  | noteTypeNotFound (name : String)
  | targetFieldNotFound (name : String)
  | missingSourceField (name : String)
deriving DecidableEq

/-- The model-resolution step of `process_deck_file`, including the Python
truthiness test `if not resolved_mid` (which also rejects a resolved id 0). -/
def resolve_model (db : AnkiDb) (note_type : String) : Except RunError Nat :=
  match get_model_id_from_name db note_type with
  | .error _ => .error .sqlError
  | .ok none => .error (.noteTypeNotFound note_type)
  | .ok (some mid) =>
    if mid = 0 then .error (.noteTypeNotFound note_type) else .ok mid

/-- `SELECT id, flds FROM notes WHERE mid=?`. -/
def notes_for_model (db : AnkiDb) (mid : Nat) : List (Nat × String) :=
  (db.notes.filter (fun n => n.mid == mid)).map (fun n => (n.id, n.flds))

/-- The non-dry-run body of `augment_notes.process_deck_file` up to the
collected update set: model resolution, field-map lookup, the fail-fast
required-field check, record selection, and per-record processing.  The
thread pool is modelled by mapping `process_note_file` over the selected
records; `as_completed` makes the collection order of the real run
nondeterministic, and every property proved about the update set here is
order-independent. -/
def compute_updates (client : GenClient) (md : String → String) (now : Int)
    (db : AnkiDb) (note_type target_field prompt_template : String) :
    Except RunError (List Update) :=
  match resolve_model db note_type with
  | .error e => .error e
  | .ok resolved_mid =>
    let field_map := get_field_map db resolved_mid
    match field_map.lookup target_field with
    | none => .error (.targetFieldNotFound target_field)
    | some target_idx =>
      let required_fields := extract_required_fields prompt_template
      match required_fields.find? (fun f => (field_map.lookup f).isNone) with
      | some f => .error (.missingSourceField f)
      | none =>
        let notes_to_process := select_pending (notes_for_model db resolved_mid) target_idx
        .ok (notes_to_process.filterMap (fun n =>
          process_note_file client md now n.1 n.2 field_map target_field
            prompt_template required_fields))

/-- One execution of `UPDATE notes SET flds=?, mod=? WHERE id=?`. -/
def apply_one (u : Update) (notes : List NoteRow) : List NoteRow :=
  notes.map (fun n => if n.id == u.nid then { n with flds := u.flds, mod := u.mod } else n)

/-- `cursor.executemany("UPDATE notes SET flds=?, mod=? WHERE id=?", updates)`:
the update rows applied in sequence. -/
def apply_updates (updates : List Update) (notes : List NoteRow) : List NoteRow :=
  updates.foldl (fun ns u => apply_one u ns) notes

/-- The write-back branch of `process_deck_file`: `executemany` and `commit`
run only when `updates` is non-empty. -/
def write_back (updates : List Update) (notes : List NoteRow) : List NoteRow :=
  if updates.isEmpty then notes else apply_updates updates notes

/-- The failure modes of container open: `zipfile.BadZipFile` from
`zipfile.ZipFile` (invalid archive), and the `FileNotFoundError` raised by
`shutil.copy` when neither database payload exists in the archive. -/
inductive OpenError
  | invalidContainer
  | missingPayload
deriving DecidableEq

/-- `augment_notes.setup_environment`: extract the archive (`none` models an
archive the zip reader rejects) and materialize one working database — the
zstd-decompressed modern payload when `collection.anki21b` is present,
otherwise the legacy `collection.anki2` copied verbatim; with neither
present the copy raises (`missingPayload`).  `dec` is the external zstd
decompressor. -/
def setup_environment (archive : Option FileTree) (dec : ByteData → ByteData) :
    Except OpenError ByteData :=
  match archive with
  | none => .error .invalidContainer
  | some entries =>
    match entries.lookup "collection.anki21b" with
    | some b => .ok (dec b)
    | none =>
      match entries.lookup "collection.anki2" with
      | some b => .ok b
      | none => .error .missingPayload

/-- The scratch artifacts excluded from the output archive. -/
def scratch_files : List String :=
  ["collection_working.db", "collection_legacy.anki2", "collection_new.anki2"]

/-- The repackaging tail of `process_deck_file`: write the working copy into
the legacy slot and its zstd compression (`comp`) into the modern slot, then
zip every file of the extraction directory except the scratch artifacts. -/
def close_package (extracted : FileTree) (working : ByteData)
    (comp : ByteData → ByteData) : FileTree :=
  let d1 := set_entry extracted "collection.anki2" working
  let d2 := set_entry d1 "collection.anki21b" (comp working)
  d2.filter (fun e => !(scratch_files.contains e.1))

/-- The whole codec round trip for a run that collected zero updates: open
the package, leave the working database untouched, and repackage. -/
def roundtrip_no_updates (entries : FileTree) (dec comp : ByteData → ByteData) :
    Except OpenError FileTree :=
  (setup_environment (some entries) dec).map (fun w =>
    close_package (set_entry entries "collection_working.db" w) w comp)

end AugmentNotes

namespace AugmentDeck

/-- The legacy branch of `augment_deck.get_model_id_from_name`: decode the
`models` JSON blob of the `col` table and scan it for the first entry whose
`name` matches; `none` when the row is absent/empty, the JSON does not
decode, or nothing matches. -/
def legacy_model_lookup (db : AnkiDb) (model_name : String) : Option Nat :=
  match db.col_models with
  | none => none
  | some models => (models.find? (fun m => m.2.name == model_name)).map (fun m => m.1)

/-- `augment_deck.get_model_id_from_name`: query `notetypes` for an exact
name match; when that query raises `sqlite3.OperationalError` (table absent
on older generations) or finds no match, fall through to the legacy `models`
blob scan. -/
def get_model_id_from_name (db : AnkiDb) (model_name : String) : Option Nat :=
  let from_table :=
    match db.notetypes with
    | none => none
    | some rows => (rows.find? (fun r => r.2 == model_name)).map (fun r => r.1)
  match from_table with
  | some nid => some nid
  | none => legacy_model_lookup db model_name

end AugmentDeck

/-- The legacy-generation database of the specification's schema-fallback
example: no `notetypes` table, and a decoded `models` blob
`\x7b"1": \x7b"name": "Basic", "flds": [\x7b"name": "Front"\x7d, \x7b"name": "Back"\x7d]\x7d\x7d`. -/
def legacy_example_db : AnkiDb :=
  { notetypes := none
    col_models := some [(1, { name := "Basic", flds := ["Front", "Back"] })]
    fields := []
    notes := [] }

/-! ## Supporting lemmas -/

theorem split_fld_chars_ne_nil (cs : List Char) : split_fld_chars cs ≠ [] := by
  induction cs with
  | nil => simp [split_fld_chars]
  | cons c rest ih =>
    simp only [split_fld_chars]
    split
    · simp
    · split <;> simp

theorem sep_not_mem_split (cs : List Char) : ∀ p ∈ split_fld_chars cs, FIELD_SEP ∉ p := by
  induction cs with
  | nil =>
    intro p hp
    simp [split_fld_chars] at hp
    simp [hp]
  | cons c rest ih =>
    intro p hp
    simp only [split_fld_chars] at hp
    by_cases hc : c = FIELD_SEP
    · rw [if_pos hc] at hp
      rcases List.mem_cons.mp hp with h1 | h2
      · simp [h1]
      · exact ih p h2
    · rw [if_neg hc] at hp
      cases hsp : split_fld_chars rest with
      | nil => exact absurd hsp (split_fld_chars_ne_nil rest)
      | cons q qs =>
        rw [hsp] at hp
        rcases List.mem_cons.mp hp with h1 | h2
        · subst h1
          intro hmem
          rcases List.mem_cons.mp hmem with h3 | h4
          · exact hc h3.symm
          · exact ih q (hsp ▸ List.mem_cons_self q qs) h4
        · exact ih p (hsp ▸ List.mem_cons_of_mem q h2)

theorem split_fld_chars_no_sep (cs : List Char) (h : FIELD_SEP ∉ cs) :
    split_fld_chars cs = [cs] := by
  induction cs with
  | nil => simp [split_fld_chars]
  | cons c rest ih =>
    have hc : ¬c = FIELD_SEP := fun hc => h (hc ▸ List.mem_cons_self c rest)
    have hrest : FIELD_SEP ∉ rest := fun hm => h (List.mem_cons_of_mem c hm)
    simp only [split_fld_chars, if_neg hc, ih hrest]

theorem split_fld_chars_append (p rest : List Char) (hp : FIELD_SEP ∉ p) :
    split_fld_chars (p ++ FIELD_SEP :: rest) = p :: split_fld_chars rest := by
  induction p with
  | nil =>
    simp [split_fld_chars]
  | cons c q ih =>
    have hc : ¬c = FIELD_SEP := fun hc => hp (hc ▸ List.mem_cons_self c q)
    have hq : FIELD_SEP ∉ q := fun hm => hp (List.mem_cons_of_mem c hm)
    rw [List.cons_append]
    simp only [split_fld_chars, if_neg hc]
    rw [ih hq]

theorem join_split_chars (ps : List (List Char)) (hne : ps ≠ [])
    (h : ∀ p ∈ ps, FIELD_SEP ∉ p) : split_fld_chars (join_fld_chars ps) = ps := by
  induction ps with
  | nil => exact absurd rfl hne
  | cons p ps ih =>
    cases ps with
    | nil =>
      simp only [join_fld_chars]
      exact split_fld_chars_no_sep p (h p (List.mem_cons_self p []))
    | cons q qs =>
      have hp : FIELD_SEP ∉ p := h p (List.mem_cons_self p (q :: qs))
      have hrest : ∀ r ∈ q :: qs, FIELD_SEP ∉ r := fun r hr => h r (List.mem_cons_of_mem p hr)
      simp only [join_fld_chars]
      rw [split_fld_chars_append p _ hp, ih (by simp) hrest]

theorem split_join_flds (parts : List String) (hne : parts ≠ [])
    (h : ∀ p ∈ parts, FIELD_SEP ∉ p.data) :
    split_flds (join_flds parts) = parts := by
  have hmapne : parts.map String.data ≠ [] := by
    simpa using hne
  have hmap : ∀ q ∈ parts.map String.data, FIELD_SEP ∉ q := by
    intro q hq
    obtain ⟨s, hs, rfl⟩ := List.mem_map.mp hq
    exact h s hs
  show (split_fld_chars (join_fld_chars (parts.map String.data))).map (fun p => (⟨p⟩ : String)) = parts
  rw [join_split_chars _ hmapne hmap, List.map_map]
  have : ((fun p => (⟨p⟩ : String)) ∘ String.data) = id := by
    funext s
    rfl
  rw [this, List.map_id]

theorem mem_split_flds_no_sep (s p : String) (hp : p ∈ split_flds s) :
    FIELD_SEP ∉ p.data := by
  obtain ⟨q, hq, rfl⟩ := List.mem_map.mp hp
  exact sep_not_mem_split s.data q hq

theorem le_foldl_max (l : List Nat) (init : Nat) : init ≤ l.foldl Nat.max init := by
  induction l generalizing init with
  | nil => exact Nat.le_refl _
  | cons a l ih => exact Nat.le_trans (Nat.le_max_left init a) (ih (Nat.max init a))

theorem mem_le_foldl_max (l : List Nat) (x : Nat) (hx : x ∈ l) (init : Nat) :
    x ≤ l.foldl Nat.max init := by
  induction l generalizing init with
  | nil => cases hx
  | cons a l ih =>
    rcases List.mem_cons.mp hx with h1 | h2
    · subst h1
      exact Nat.le_trans (Nat.le_max_right init x) (le_foldl_max l _)
    · exact ih h2 _

theorem lookup_snd_mem {α β : Type} [BEq α] (l : List (α × β)) (a : α) (b : β)
    (h : l.lookup a = some b) : b ∈ l.map Prod.snd := by
  induction l with
  | nil => cases h
  | cons e l ih =>
    rw [List.lookup] at h
    cases hab : a == e.1 with
    | true =>
      rw [hab] at h
      cases h
      exact List.mem_cons_self _ _
    | false =>
      rw [hab] at h
      exact List.mem_cons_of_mem _ (ih h)

namespace AugmentNotes

theorem lookup_le_max_fm (fm : FieldMap) (f : String) (i : Nat)
    (h : fm.lookup f = some i) : i ≤ max_fm_index fm :=
  mem_le_foldl_max _ _ (lookup_snd_mem fm f i h) 0

theorem max_lt_pad_parts_length (parts : List String) (m : Nat) :
    m < (pad_parts parts m).length := by
  simp only [pad_parts, List.length_append, List.length_replicate]
  omega

theorem mem_pad_parts (parts : List String) (m : Nat) (p : String)
    (hp : p ∈ pad_parts parts m) : p ∈ parts ∨ p = "" := by
  rcases List.mem_append.mp hp with h1 | h2
  · exact Or.inl h1
  · exact Or.inr (List.eq_of_mem_replicate h2)

end AugmentNotes

theorem lookup_filter_key {β : Type} (d : List (String × β)) (p : String → Bool)
    (k : String) (hk : p k = true) :
    (d.filter (fun e => p e.1)).lookup k = d.lookup k := by
  induction d with
  | nil => rfl
  | cons e d ih =>
    rw [List.filter_cons]
    cases hpe : p e.1 with
    | true =>
      simp only [hpe, if_true]
      rw [List.lookup, List.lookup]
      cases k == e.1
      · simpa using ih
      · rfl
    | false =>
      simp only [hpe, Bool.false_eq_true, if_false]
      rw [List.lookup]
      have hke : (k == e.1) = false := by
        cases hke : k == e.1
        · rfl
        · exact absurd hpe (by rw [beq_iff_eq.mp hke] at hk; simp [hk])
      rw [hke]
      exact ih

theorem lookup_set_entry_self (d : FileTree) (k : String) (v : ByteData) :
    (set_entry d k v).lookup k = some v := by
  simp [set_entry, List.lookup]

theorem lookup_set_entry_ne (d : FileTree) (k k' : String) (v : ByteData)
    (h : k' ≠ k) : (set_entry d k v).lookup k' = d.lookup k' := by
  rw [set_entry, List.lookup]
  have hk : (k' == k) = false := beq_eq_false_iff_ne.mpr h
  rw [hk]
  have : (fun e : String × ByteData => e.1 != k) = (fun e : String × ByteData => !(e.1 == k)) := rfl
  rw [this]
  have hp : (!(k' == k)) = true := by
    rw [hk]
    rfl
  exact lookup_filter_key d (fun s => !(s == k)) k' hp

namespace AugmentNotes

theorem apply_updates_cons (u : Update) (us : List Update) (notes : List NoteRow) :
    apply_updates (u :: us) notes = apply_updates us (apply_one u notes) := rfl

theorem apply_one_hit (u : Update) (n : NoteRow) (h : n.id = u.nid) :
    (if n.id == u.nid then { n with flds := u.flds, mod := u.mod } else n) =
      { n with flds := u.flds, mod := u.mod } :=
  if_pos (beq_iff_eq.mpr h)

theorem apply_one_miss (u : Update) (n : NoteRow) (h : ¬n.id = u.nid) :
    (if n.id == u.nid then { n with flds := u.flds, mod := u.mod } else n) = n :=
  if_neg (by simp [h])

theorem apply_one_getElem? (u : Update) (notes : List NoteRow) (k : Nat) :
    (apply_one u notes)[k]? = (notes[k]?).map
      (fun n => if n.id == u.nid then { n with flds := u.flds, mod := u.mod } else n) :=
  List.getElem?_map _ notes k

theorem apply_updates_length (updates : List Update) :
    ∀ notes : List NoteRow, (apply_updates updates notes).length = notes.length := by
  induction updates with
  | nil => intro notes; rfl
  | cons u us ih =>
    intro notes
    rw [apply_updates_cons, ih]
    exact List.length_map notes _

theorem apply_updates_untouched (updates : List Update) :
    ∀ (notes : List NoteRow) (k : Nat) (n : NoteRow), notes[k]? = some n →
    (∀ u ∈ updates, u.nid ≠ n.id) → (apply_updates updates notes)[k]? = some n := by
  induction updates with
  | nil => intro notes k n hn _; exact hn
  | cons u us ih =>
    intro notes k n hn h
    rw [apply_updates_cons]
    have hstep : (apply_one u notes)[k]? = some n := by
      rw [apply_one_getElem?, hn]
      simp only [Option.map_some']
      rw [apply_one_miss u n (fun he => h u (List.mem_cons_self u us) he.symm)]
    exact ih _ k n hstep (fun v hv => h v (List.mem_cons_of_mem u hv))

theorem apply_updates_pointwise (updates : List Update) :
    ∀ (notes : List NoteRow) (k : Nat) (n : NoteRow), notes[k]? = some n →
    ∃ m : NoteRow, (apply_updates updates notes)[k]? = some m ∧ m.id = n.id ∧ m.mid = n.mid ∧
      (m = n ∨ ∃ u ∈ updates, u.nid = n.id ∧ m.flds = u.flds ∧ m.mod = u.mod) := by
  induction updates with
  | nil =>
    intro notes k n hn
    exact ⟨n, hn, rfl, rfl, Or.inl rfl⟩
  | cons u us ih =>
    intro notes k n hn
    rw [apply_updates_cons]
    by_cases hu : n.id = u.nid
    · have hstep : (apply_one u notes)[k]? = some { n with flds := u.flds, mod := u.mod } := by
        rw [apply_one_getElem?, hn]
        simp only [Option.map_some']
        rw [apply_one_hit u n hu]
      obtain ⟨m, hm, hid, hmid, hrest⟩ := ih _ k _ hstep
      refine ⟨m, hm, hid, hmid, Or.inr ?_⟩
      rcases hrest with h1 | ⟨v, hv, hvn, hvf, hvm⟩
      · exact ⟨u, List.mem_cons_self u us, hu.symm, by rw [h1], by rw [h1]⟩
      · exact ⟨v, List.mem_cons_of_mem u hv, hvn, hvf, hvm⟩
    · have hstep : (apply_one u notes)[k]? = some n := by
        rw [apply_one_getElem?, hn]
        simp only [Option.map_some']
        rw [apply_one_miss u n hu]
      obtain ⟨m, hm, hid, hmid, hrest⟩ := ih _ k _ hstep
      refine ⟨m, hm, hid, hmid, ?_⟩
      rcases hrest with h1 | ⟨v, hv, hvn, hvf, hvm⟩
      · exact Or.inl h1
      · exact Or.inr ⟨v, List.mem_cons_of_mem u hv, hvn, hvf, hvm⟩

theorem apply_updates_covered (updates : List Update) :
    ∀ (notes : List NoteRow) (k : Nat) (n : NoteRow), notes[k]? = some n →
    (∃ u ∈ updates, u.nid = n.id) →
    ∃ u ∈ updates, u.nid = n.id ∧
      (apply_updates updates notes)[k]? = some { n with flds := u.flds, mod := u.mod } := by
  induction updates with
  | nil =>
    intro notes k n _ hex
    obtain ⟨u, hu, _⟩ := hex
    cases hu
  | cons u us ih =>
    intro notes k n hn hex
    rw [apply_updates_cons]
    by_cases hu : u.nid = n.id
    · have hstep : (apply_one u notes)[k]? = some { n with flds := u.flds, mod := u.mod } := by
        rw [apply_one_getElem?, hn]
        simp only [Option.map_some']
        rw [apply_one_hit u n hu.symm]
      by_cases hus : ∃ v ∈ us, v.nid = n.id
      · obtain ⟨v, hv, hvn, hres⟩ := ih _ k _ hstep (by
          obtain ⟨v, hv, hvn⟩ := hus
          exact ⟨v, hv, by simpa using hvn⟩)
        exact ⟨v, List.mem_cons_of_mem u hv, by simpa using hvn, by simpa using hres⟩
      · have hres := apply_updates_untouched us _ k _ hstep (by
          intro v hv hvn
          exact hus ⟨v, hv, by simpa using hvn⟩)
        exact ⟨u, List.mem_cons_self u us, hu, hres⟩
    · have hstep : (apply_one u notes)[k]? = some n := by
        rw [apply_one_getElem?, hn]
        simp only [Option.map_some']
        rw [apply_one_miss u n (fun he => hu he.symm)]
      have hus : ∃ v ∈ us, v.nid = n.id := by
        obtain ⟨v, hv, hvn⟩ := hex
        rcases List.mem_cons.mp hv with h1 | h2
        · exact absurd (h1 ▸ hvn) hu
        · exact ⟨v, h2, hvn⟩
      obtain ⟨v, hv, hvn, hres⟩ := ih _ k _ hstep hus
      exact ⟨v, List.mem_cons_of_mem u hv, hvn, hres⟩

theorem write_back_eq_apply (updates : List Update) (notes : List NoteRow) :
    write_back updates notes = apply_updates updates notes := by
  rw [write_back]
  cases updates with
  | nil => rfl
  | cons u us => rfl

theorem process_note_parts_some (client : GenClient) (md : String → String)
    (parts : List String) (fm : FieldMap) (tf tmpl : String) (req : List String)
    (parts' : List String)
    (h : process_note_parts client md parts fm tf tmpl req = some parts') :
    ∃ (idx : Nat) (prompt : String), fm.lookup tf = some idx ∧
      py_strip ((pad_parts parts (max_fm_index fm)).getD idx "") = "" ∧
      parts' = (pad_parts parts (max_fm_index fm)).set idx (generate_content client md prompt) ∧
      generate_content client md prompt ≠ "" := by
  unfold process_note_parts at h
  split at h
  · cases h
  next idx hfm =>
    split at h
    next hstrip =>
      split at h
      · cases h
      next ctx hctx =>
        split at h
        · cases h
        next filled hfmt =>
          split at h
          · cases h
          next hgen =>
            cases h
            exact ⟨idx, filled, hfm, hstrip, rfl, hgen⟩
    · cases h

theorem process_note_file_some (client : GenClient) (md : String → String)
    (now : Int) (nid : Nat) (flds : String) (fm : FieldMap) (tf tmpl : String)
    (req : List String) (u : Update)
    (h : process_note_file client md now nid flds fm tf tmpl req = some u) :
    u.nid = nid ∧ u.mod = now ∧
    ∃ parts' : List String,
      process_note_parts client md (split_flds flds) fm tf tmpl req = some parts' ∧
      u.flds = join_flds parts' := by
  unfold process_note_file at h
  cases hp : process_note_parts client md (split_flds flds) fm tf tmpl req with
  | none => rw [hp] at h; cases h
  | some parts' =>
    rw [hp] at h
    cases h
    exact ⟨rfl, rfl, parts', rfl, rfl⟩

theorem update_not_pending (client : GenClient) (md : String → String) (now : Int)
    (fm : FieldMap) (tf tmpl : String) (req : List String) (idx : Nat)
    (r : Nat × String) (u : Update)
    (h_idx : fm.lookup tf = some idx)
    (h : process_note_file client md now r.1 r.2 fm tf tmpl req = some u)
    (h_trim : ∀ prompt : String, generate_content client md prompt ≠ "" →
      py_strip (generate_content client md prompt) ≠ "")
    (h_sep : ∀ prompt : String, FIELD_SEP ∉ (generate_content client md prompt).data) :
    pending_pred u.flds idx = false := by
  obtain ⟨hnid, hmod, parts', hparts, hflds⟩ :=
    process_note_file_some _ _ _ _ _ _ _ _ _ _ h
  obtain ⟨idx', prompt, hfm', hstrip, hset, hgenne⟩ :=
    process_note_parts_some _ _ _ _ _ _ _ _ hparts
  have hidx : idx' = idx := by
    rw [h_idx] at hfm'
    exact (Option.some.inj hfm').symm
  rw [hidx] at hstrip hset
  have hle : idx ≤ max_fm_index fm := lookup_le_max_fm fm tf idx h_idx
  have hlt : idx < (pad_parts (split_flds r.2) (max_fm_index fm)).length :=
    Nat.lt_of_le_of_lt hle (max_lt_pad_parts_length _ _)
  have hlen : parts'.length = (pad_parts (split_flds r.2) (max_fm_index fm)).length := by
    rw [hset]
    exact List.length_set _ _ _
  have hsepfree : ∀ p ∈ parts', FIELD_SEP ∉ p.data := by
    intro p hp
    rw [hset] at hp
    rcases List.mem_or_eq_of_mem_set hp with h1 | h2
    · rcases mem_pad_parts _ _ _ h1 with h3 | h3
      · exact mem_split_flds_no_sep _ _ h3
      · rw [h3]
        intro hmem
        cases hmem
    · rw [h2]
      exact h_sep prompt
  have hne : parts' ≠ [] := by
    intro hnil
    rw [hnil] at hlen
    simp at hlen
    omega
  have hsplit : split_flds u.flds = parts' := by
    rw [hflds]
    exact split_join_flds parts' hne hsepfree
  have hlenidx : ¬(split_flds u.flds).length ≤ idx := by
    rw [hsplit, hlen]
    omega
  have hgetd : (split_flds u.flds).getD idx "" = generate_content client md prompt := by
    rw [hsplit, hset, List.getD_eq_getElem?_getD, List.getElem?_set_self hlt]
    rfl
  have hstripne : (py_strip ((split_flds u.flds).getD idx "") == "") = false := by
    rw [hgetd]
    exact beq_eq_false_iff_ne.mpr (h_trim prompt hgenne)
  rw [pending_pred, hstripne]
  simp [hlenidx]

end AugmentNotes

/-! ## Claims -/

open AugmentNotes

/-- Claim C1: for every record of the resolved note type, the record selector
classifies it as pending iff its delimiter-split positional value array is
shorter than the target field's index plus one, or the value at that index
trims to the empty string; a record with a non-empty, whitespace-padded
target value such as "  x  " is already-done and is never passed
downstream. -/
theorem select_pending_spec (rows : List (Nat × String)) (target_idx : Nat) :
    (∀ r : Nat × String, r ∈ select_pending rows target_idx ↔
      r ∈ rows ∧ ((split_flds r.2).length < target_idx + 1 ∨
        py_strip ((split_flds r.2).getD target_idx "") = "")) ∧
    pending_pred "  x  " 0 = false ∧
    select_pending [(1, "  x  ")] 0 = [] := by
  refine ⟨fun r => ?_, by decide, by decide⟩
  rw [select_pending, List.mem_filter, pending_pred]
  simp only [Bool.or_eq_true, decide_eq_true_eq, beq_iff_eq, Nat.lt_succ_iff]

/-- Claim C1 (instance): the selector applied to a one-record list with a
whitespace-padded target value selects nothing. -/
theorem select_pending_spec_instance :
    pending_pred "  x  " 0 = false ∧ select_pending [(1, "  x  ")] 0 = [] :=
  ⟨(select_pending_spec [] 0).2.1, (select_pending_spec [] 0).2.2⟩

/-- Claim C5: prompt construction substitutes each placeholder-named source
field's positional value into the template: with template "Analyze: \x7bText\x7d",
field map Text ↦ 0, Notes ↦ 2 and record "Bonjour\x1fExtra\x1f\x1fImg", the
filled prompt is exactly "Analyze: Bonjour" (observed end to end through
`process_note_file` with an echoing generation client and the identity
Markdown converter). -/
theorem field_substitution_example :
    extract_required_fields "Analyze: {Text}" = ["Text"] ∧
    build_context ["Text"] [("Text", 0), ("Notes", 2)]
        (pad_parts (split_flds "Bonjour\x1fExtra\x1f\x1fImg")
          (max_fm_index [("Text", 0), ("Notes", 2)])) = some [("Text", "Bonjour")] ∧
    py_format "Analyze: {Text}" [("Text", "Bonjour")] = some "Analyze: Bonjour" ∧
    process_note_file (fun p => some p) (fun s => s) 0 1 "Bonjour\x1fExtra\x1f\x1fImg"
        [("Text", 0), ("Notes", 2)] "Notes" "Analyze: {Text}" ["Text"] =
      some { flds := "Bonjour\x1fExtra\x1fAnalyze: Bonjour\x1fImg", mod := 0, nid := 1 } := by
  refine ⟨by decide, by decide, by decide, by decide⟩

/-- Claim C8: container open produces exactly one working database regardless
of payload form — the decompressed modern payload when `collection.anki21b`
is present, the legacy `collection.anki2` verbatim otherwise — and fails
with `invalidContainer` on an unreadable archive, or `missingPayload` when
neither database form exists in the archive. -/
theorem setup_environment_spec (dec : ByteData → ByteData) (es : FileTree) :
    setup_environment none dec = .error .invalidContainer ∧
    (∀ b : ByteData, es.lookup "collection.anki21b" = some b →
      setup_environment (some es) dec = .ok (dec b)) ∧
    (es.lookup "collection.anki21b" = none →
      ∀ b : ByteData, es.lookup "collection.anki2" = some b →
        setup_environment (some es) dec = .ok b) ∧
    (es.lookup "collection.anki21b" = none → es.lookup "collection.anki2" = none →
      setup_environment (some es) dec = .error .missingPayload) := by
  refine ⟨rfl, ?_, ?_, ?_⟩
  · intro b hb
    simp only [setup_environment, hb]
  · intro h21 b h2
    simp only [setup_environment, h21, h2]
  · intro h21 h2
    simp only [setup_environment, h21, h2]

/-- Claim C8 (instance): the three payload configurations at concrete
archives. -/
theorem setup_environment_spec_instance :
    setup_environment (some [("collection.anki2", [7])]) (fun b => 0 :: b) =
      .ok [7] ∧
    setup_environment (some [("collection.anki21b", [9])]) (fun b => 0 :: b) =
      .ok [0, 9] ∧
    setup_environment (some [("media", [])]) (fun b => 0 :: b) =
      .error .missingPayload :=
  ⟨(setup_environment_spec (fun b => 0 :: b) [("collection.anki2", [7])]).2.2.1
      (by decide) [7] (by decide),
    (setup_environment_spec (fun b => 0 :: b) [("collection.anki21b", [9])]).2.1
      [9] (by decide),
    (setup_environment_spec (fun b => 0 :: b) [("media", [])]).2.2.2
      (by decide) (by decide)⟩

/-- Claim C2 (counterexample): the claim quantifies over note-type-id
resolution as implemented in both scripts, but the `augment_notes.py`
resolver has no legacy fallback: on the claim's own example database —
no modern `notetypes` table, models blob mapping 1 to "Basic" — it
propagates an uncaught `sqlite3.OperationalError` instead of returning
id 1. -/
theorem notes_resolver_no_fallback_cex :
    AugmentNotes.get_model_id_from_name legacy_example_db "Basic" =
      .error .operationalError ∧
    AugmentNotes.get_model_id_from_name legacy_example_db "Basic" ≠
      .ok (some 1) :=
  ⟨rfl, fun h => Except.noConfusion h⟩

/-- Claim C2 (amended): in `augment_deck.py`, note-type-id resolution first
attempts the modern `notetypes` table; when that table is absent — or
contains no matching name — it falls back to the decoded JSON models blob;
it returns the first identifier whose name matches exactly, and returns no
id (surfaced as the fatal not-found error) only when no match exists in
either source.  On the claim's example database, resolving "Basic" yields
id 1.  The `augment_notes.py` resolver instead queries only the `notetypes`
table and propagates the sqlite error on a database lacking it. -/
theorem model_id_resolution_spec :
    (∀ (db : AnkiDb) (name : String), db.notetypes = none →
      AugmentDeck.get_model_id_from_name db name =
        AugmentDeck.legacy_model_lookup db name) ∧
    (∀ (db : AnkiDb) (name : String) (rows : List (Nat × String)),
      db.notetypes = some rows → rows.find? (fun r => r.2 == name) = none →
      AugmentDeck.get_model_id_from_name db name =
        AugmentDeck.legacy_model_lookup db name) ∧
    (∀ (db : AnkiDb) (name : String) (rows : List (Nat × String)) (i : Nat) (nm : String),
      db.notetypes = some rows → rows.find? (fun r => r.2 == name) = some (i, nm) →
      AugmentDeck.get_model_id_from_name db name = some i) ∧
    (∀ (db : AnkiDb) (name : String),
      AugmentDeck.get_model_id_from_name db name = none ↔
        ((∀ rows : List (Nat × String), db.notetypes = some rows →
            rows.find? (fun r => r.2 == name) = none) ∧
          AugmentDeck.legacy_model_lookup db name = none)) ∧
    AugmentDeck.get_model_id_from_name legacy_example_db "Basic" = some 1 ∧
    (∀ (db : AnkiDb) (name : String), db.notetypes = none →
      AugmentNotes.get_model_id_from_name db name = .error .operationalError) := by
  refine ⟨?_, ?_, ?_, ?_, by decide, ?_⟩
  · intro db name h
    simp only [AugmentDeck.get_model_id_from_name, h]
  · intro db name rows h hfind
    simp only [AugmentDeck.get_model_id_from_name, h, hfind, Option.map_none']
  · intro db name rows i nm h hfind
    simp only [AugmentDeck.get_model_id_from_name, h, hfind, Option.map_some']
  · intro db name
    cases h : db.notetypes with
    | none =>
      simp only [AugmentDeck.get_model_id_from_name, h]
      constructor
      · intro hleg
        refine ⟨?_, hleg⟩
        intro rows hrows
        cases hrows
      · intro hand
        exact hand.2
    | some rows =>
      cases hfind : rows.find? (fun r => r.2 == name) with
      | none =>
        simp only [AugmentDeck.get_model_id_from_name, h, hfind, Option.map_none']
        constructor
        · intro hleg
          refine ⟨fun rows' hrows' => ?_, hleg⟩
          cases hrows'
          exact hfind
        · intro ⟨_, hleg⟩
          exact hleg
      | some e =>
        simp only [AugmentDeck.get_model_id_from_name, h, hfind, Option.map_some']
        constructor
        · intro hc
          cases hc
        · intro ⟨hall, _⟩
          rw [hall rows rfl] at hfind
          cases hfind
  · intro db name h
    simp only [AugmentNotes.get_model_id_from_name, h]

/-- Claim C2 (amended, instance): the fallback branch exercised on the
example database. -/
theorem model_id_resolution_spec_instance :
    AugmentDeck.get_model_id_from_name legacy_example_db "Basic" =
      AugmentDeck.legacy_model_lookup legacy_example_db "Basic" ∧
    AugmentNotes.get_model_id_from_name legacy_example_db "Basic" =
      .error .operationalError :=
  ⟨model_id_resolution_spec.1 legacy_example_db "Basic" rfl,
    model_id_resolution_spec.2.2.2.2.2 legacy_example_db "Basic" rfl⟩

/-- Claim C4: when the prompt template contains a placeholder naming a field
absent from the resolved field map, the run fails with the
missing-source-field error naming the (first) offending field; the check
happens once, before any generation call is dispatched — the run's outcome
does not depend on the generation client at all, so no generation request is
ever issued. -/
theorem missing_source_field_fail_fast (db : AnkiDb) (nt tf tmpl : String)
    (rid : Nat) (f : String)
    (h_rid : resolve_model db nt = .ok rid)
    (h_tf : ((get_field_map db rid).lookup tf).isSome = true)
    (h_find : (extract_required_fields tmpl).find?
        (fun g => ((get_field_map db rid).lookup g).isNone) = some f) :
    (∀ (client : GenClient) (md : String → String) (now : Int),
      compute_updates client md now db nt tf tmpl =
        .error (.missingSourceField f)) ∧
    f ∈ extract_required_fields tmpl ∧
    (get_field_map db rid).lookup f = none := by
  refine ⟨?_, List.mem_of_find?_eq_some h_find, ?_⟩
  · intro client md now
    obtain ⟨i, hi⟩ := Option.isSome_iff_exists.mp h_tf
    simp only [compute_updates, h_rid, hi, h_find]
  · have hp := List.find?_some h_find
    exact Option.isNone_iff_eq_none.mp (by simpa using hp)

/-- Claim C4 (instance): a template naming an unmapped field makes the run
fail with that field's name, at a concrete database, for an arbitrarily
chosen generation client. -/
theorem missing_source_field_fail_fast_instance :
    compute_updates (fun _ => some "x") (fun s => s) 3
      { notetypes := some [(5, "Cloze")]
        col_models := none
        fields := [(5, ("Text", 0)), (5, ("Notes", 2))]
        notes := [] }
      "Cloze" "Notes" "A: {Missing}" = .error (.missingSourceField "Missing") :=
  (missing_source_field_fail_fast
      { notetypes := some [(5, "Cloze")]
        col_models := none
        fields := [(5, ("Text", 0)), (5, ("Notes", 2))]
        notes := [] }
      "Cloze" "Notes" "A: {Missing}" 5 "Missing"
      rfl (by decide) (by decide)).1 (fun _ => some "x") (fun s => s) 3

/-- Claim C6: with an empty collected update set the write-back performs no
database write, and the container round trip (open, leave the working copy
untouched, close) writes that working copy byte-identically into the legacy
slot and its compression into the modern slot — in particular, the payload
in decompressed working form is preserved exactly: the extracted legacy
payload verbatim, or the decompression of the modern payload. -/
theorem zero_updates_roundtrip (entries : FileTree)
    (dec comp : ByteData → ByteData) (w : ByteData)
    (h_open : setup_environment (some entries) dec = .ok w) :
    (∀ notes : List NoteRow, write_back [] notes = notes) ∧
    roundtrip_no_updates entries dec comp =
      .ok (close_package (set_entry entries "collection_working.db" w) w comp) ∧
    (close_package (set_entry entries "collection_working.db" w) w comp).lookup
        "collection.anki2" = some w ∧
    (close_package (set_entry entries "collection_working.db" w) w comp).lookup
        "collection.anki21b" = some (comp w) ∧
    (∀ b : ByteData, entries.lookup "collection.anki21b" = some b → w = dec b) ∧
    (entries.lookup "collection.anki21b" = none →
      entries.lookup "collection.anki2" = some w) := by
  refine ⟨fun notes => rfl, ?_, ?_, ?_, ?_, ?_⟩
  · rw [roundtrip_no_updates, h_open]
    rfl
  · rw [close_package]
    rw [lookup_filter_key _ (fun s => !scratch_files.contains s) "collection.anki2"
      (by decide)]
    rw [lookup_set_entry_ne _ _ _ _ (by decide)]
    exact lookup_set_entry_self _ _ _
  · rw [close_package]
    rw [lookup_filter_key _ (fun s => !scratch_files.contains s) "collection.anki21b"
      (by decide)]
    exact lookup_set_entry_self _ _ _
  · intro b hb
    simp only [setup_environment, hb] at h_open
    exact (Except.ok.inj h_open).symm
  · intro h21
    cases h2 : entries.lookup "collection.anki2" with
    | none =>
      simp only [setup_environment, h21, h2] at h_open
      cases h_open
    | some b =>
      simp only [setup_environment, h21, h2] at h_open
      rw [Except.ok.inj h_open]

/-- Claim C6 (instance): the round trip on a concrete legacy-form package
with zero updates keeps the payload byte-identical in the legacy slot and
mirrors its compression into the modern slot. -/
theorem zero_updates_roundtrip_instance :
    write_back [] [] = ([] : List NoteRow) ∧
    (close_package
        (set_entry [("collection.anki2", [1, 2]), ("media", [9])]
          "collection_working.db" [1, 2])
        [1, 2] (fun b => 0 :: b)).lookup "collection.anki2" = some [1, 2] ∧
    (close_package
        (set_entry [("collection.anki2", [1, 2]), ("media", [9])]
          "collection_working.db" [1, 2])
        [1, 2] (fun b => 0 :: b)).lookup "collection.anki21b" = some [0, 1, 2] ∧
    [("collection.anki2", [1, 2]), ("media", [9])].lookup "collection.anki2" =
      some [1, 2] :=
  ⟨(zero_updates_roundtrip [("collection.anki2", [1, 2]), ("media", [9])]
      (fun b => b) (fun b => 0 :: b) [1, 2] rfl).1 [],
    (zero_updates_roundtrip [("collection.anki2", [1, 2]), ("media", [9])]
      (fun b => b) (fun b => 0 :: b) [1, 2] rfl).2.2.1,
    (zero_updates_roundtrip [("collection.anki2", [1, 2]), ("media", [9])]
      (fun b => b) (fun b => 0 :: b) [1, 2] rfl).2.2.2.1,
    (zero_updates_roundtrip [("collection.anki2", [1, 2]), ("media", [9])]
      (fun b => b) (fun b => 0 :: b) [1, 2] rfl).2.2.2.2.2 (by decide)⟩

/-- Claim C3: a failed generation call (the record's `process_note_file`
returns nothing) is non-fatal to the batch: every other dispatched record
whose call succeeds still contributes its update to the collected set, the
failing record is absent from the set, its database row is left untouched by
the write-back, and — its target field still being empty — it is selected
as pending again by a subsequent run. -/
theorem generation_failure_isolated
    (client : GenClient) (md : String → String) (now : Int)
    (fm : FieldMap) (tf tmpl : String) (req : List String) (idx : Nat)
    (dispatched : List (Nat × String)) (bad : Nat × String)
    (h_mem : bad ∈ dispatched)
    (h_fail : process_note_file client md now bad.1 bad.2 fm tf tmpl req = none)
    (h_ids : (dispatched.map Prod.fst).Nodup)
    (h_ok : ∀ r ∈ dispatched, r ≠ bad →
      (process_note_file client md now r.1 r.2 fm tf tmpl req).isSome = true)
    (h_pending : pending_pred bad.2 idx = true) :
    (∀ r ∈ dispatched, r ≠ bad → ∃ u : Update,
      process_note_file client md now r.1 r.2 fm tf tmpl req = some u ∧
      u ∈ dispatched.filterMap
        (fun s => process_note_file client md now s.1 s.2 fm tf tmpl req) ∧
      u.nid = r.1) ∧
    (∀ u ∈ dispatched.filterMap
        (fun s => process_note_file client md now s.1 s.2 fm tf tmpl req),
      u.nid ≠ bad.1) ∧
    (∀ (notes : List NoteRow) (k : Nat) (n : NoteRow),
      notes[k]? = some n → n.id = bad.1 →
      (apply_updates (dispatched.filterMap
          (fun s => process_note_file client md now s.1 s.2 fm tf tmpl req))
        notes)[k]? = some n) ∧
    (∀ rows : List (Nat × String), bad ∈ rows → bad ∈ select_pending rows idx) := by
  have habsent : ∀ u ∈ dispatched.filterMap
      (fun s => process_note_file client md now s.1 s.2 fm tf tmpl req),
      u.nid ≠ bad.1 := by
    intro u hu heq
    obtain ⟨r, hr, hru⟩ := List.mem_filterMap.mp hu
    obtain ⟨hnid, -, -⟩ := process_note_file_some _ _ _ _ _ _ _ _ _ _ hru
    have h1 : r.1 = bad.1 := by rw [← hnid]; exact heq
    have h2 : r = bad := List.inj_on_of_nodup_map h_ids hr h_mem h1
    rw [h2, h_fail] at hru
    cases hru
  refine ⟨?_, habsent, ?_, ?_⟩
  · intro r hr hne
    obtain ⟨u, hu⟩ := Option.isSome_iff_exists.mp (h_ok r hr hne)
    obtain ⟨hnid, -, -⟩ := process_note_file_some _ _ _ _ _ _ _ _ _ _ hu
    exact ⟨u, hu, List.mem_filterMap.mpr ⟨r, hr, hu⟩, hnid⟩
  · intro notes k n hn hid
    refine apply_updates_untouched _ _ _ _ hn ?_
    intro u hu
    rw [← hid] at habsent
    exact habsent u hu
  · intro rows hrows
    exact List.mem_filter.mpr ⟨hrows, h_pending⟩

/-- Claim C3 (instance): of two dispatched records the first one's generation
call fails; its row survives the write-back unchanged while the other
record's update is collected. -/
theorem generation_failure_isolated_instance :
    (apply_updates
        ([((1 : Nat), "x\x1f\x1f"), (2, "y\x1f\x1f")].filterMap
          (fun s => process_note_file
            (fun p => if p = "A: y" then some "ok" else none) (fun t => t) 5
            s.1 s.2 [("Text", 0), ("Notes", 2)] "Notes" "A: {Text}" ["Text"]))
        [{ id := 1, mid := 10, flds := "x\x1f\x1f", mod := 0 }])[0]? =
      some { id := 1, mid := 10, flds := "x\x1f\x1f", mod := 0 } ∧
    (1, "x\x1f\x1f") ∈ select_pending [((1 : Nat), "x\x1f\x1f")] 2 :=
  ⟨(generation_failure_isolated
      (fun p => if p = "A: y" then some "ok" else none) (fun t => t) 5
      [("Text", 0), ("Notes", 2)] "Notes" "A: {Text}" ["Text"] 2
      [(1, "x\x1f\x1f"), (2, "y\x1f\x1f")] (1, "x\x1f\x1f")
      (by decide) (by decide) (by decide) (by decide) (by decide)).2.2.1
      [{ id := 1, mid := 10, flds := "x\x1f\x1f", mod := 0 }] 0
      { id := 1, mid := 10, flds := "x\x1f\x1f", mod := 0 } (by decide) rfl,
    (generation_failure_isolated
      (fun p => if p = "A: y" then some "ok" else none) (fun t => t) 5
      [("Text", 0), ("Notes", 2)] "Notes" "A: {Text}" ["Text"] 2
      [(1, "x\x1f\x1f"), (2, "y\x1f\x1f")] (1, "x\x1f\x1f")
      (by decide) (by decide) (by decide) (by decide) (by decide)).2.2.2
      [(1, "x\x1f\x1f")] (by decide)⟩

/-- Claim C9: write-back mutates only selected records and only their target
field: a produced update's rewritten positional array agrees with the padded
original at every non-target position (absent trailing positions becoming
explicit empty strings); applying updates preserves the number of rows and
every row's `id` and `mid` column; and a row whose id matches no update is
left entirely unchanged — no record is created or deleted. -/
theorem write_back_frame :
    (∀ (client : GenClient) (md : String → String) (parts : List String)
        (fm : FieldMap) (tf tmpl : String) (req : List String)
        (parts' : List String) (idx : Nat),
      fm.lookup tf = some idx →
      process_note_parts client md parts fm tf tmpl req = some parts' →
      parts'.length = (pad_parts parts (max_fm_index fm)).length ∧
      ∀ i : Nat, i ≠ idx → parts'[i]? = (pad_parts parts (max_fm_index fm))[i]?) ∧
    (∀ (updates : List Update) (notes : List NoteRow),
      (apply_updates updates notes).length = notes.length) ∧
    (∀ (updates : List Update) (notes : List NoteRow) (k : Nat),
      ((apply_updates updates notes)[k]?).map NoteRow.id =
        (notes[k]?).map NoteRow.id ∧
      ((apply_updates updates notes)[k]?).map NoteRow.mid =
        (notes[k]?).map NoteRow.mid) ∧
    (∀ (updates : List Update) (notes : List NoteRow) (k : Nat) (n : NoteRow),
      notes[k]? = some n → (∀ u ∈ updates, u.nid ≠ n.id) →
      (apply_updates updates notes)[k]? = some n) := by
  refine ⟨?_, apply_updates_length, ?_, apply_updates_untouched⟩
  · intro client md parts fm tf tmpl req parts' idx h_idx h
    obtain ⟨idx', prompt, hfm', hstrip, hset, hgenne⟩ :=
      process_note_parts_some _ _ _ _ _ _ _ _ h
    have hidx : idx' = idx := by
      rw [h_idx] at hfm'
      exact (Option.some.inj hfm').symm
    rw [hidx] at hset
    refine ⟨by rw [hset]; exact List.length_set _ _ _, ?_⟩
    intro i hi
    rw [hset]
    exact List.getElem?_set_ne (fun he => hi he.symm)
  · intro updates notes k
    cases hn : notes[k]? with
    | none =>
      have hlen : notes.length ≤ k := List.getElem?_eq_none_iff.mp hn
      have happ : (apply_updates updates notes)[k]? = none :=
        List.getElem?_eq_none (by rw [apply_updates_length]; exact hlen)
      rw [happ]
      exact ⟨rfl, rfl⟩
    | some n =>
      obtain ⟨m, hm, hid, hmid, -⟩ := apply_updates_pointwise updates notes k n hn
      rw [hm]
      exact ⟨by rw [Option.map_some', Option.map_some', hid],
        by rw [Option.map_some', Option.map_some', hmid]⟩

/-- Claim C9 (instance): the frame facts at a concrete update set — a
non-target position survives the rewrite, and a row not named by any update
survives the batch unchanged. -/
theorem write_back_frame_instance :
    (["Bonjour", "Extra", "A: Bonjour", "Img"] : List String)[0]? =
      (pad_parts (split_flds "Bonjour\x1fExtra\x1f\x1fImg")
        (max_fm_index [("Text", 0), ("Notes", 2)]))[0]? ∧
    (apply_updates [{ flds := "new", mod := 1, nid := 7 }]
        [{ id := 3, mid := 10, flds := "keep", mod := 0 }])[0]? =
      some { id := 3, mid := 10, flds := "keep", mod := 0 } := by
  refine ⟨?_, ?_⟩
  · exact (write_back_frame.1 (fun p => some p) (fun s => s)
      (split_flds "Bonjour\x1fExtra\x1f\x1fImg") [("Text", 0), ("Notes", 2)]
      "Notes" "A: {Text}" ["Text"] ["Bonjour", "Extra", "A: Bonjour", "Img"] 2
      (by decide) (by decide)).2 0 (by decide)
  · exact write_back_frame.2.2.2 [{ flds := "new", mod := 1, nid := 7 }]
      [{ id := 3, mid := 10, flds := "keep", mod := 0 }] 0
      { id := 3, mid := 10, flds := "keep", mod := 0 } (by decide) (by decide)

/-- Claim C7: the pipeline is idempotent when no generation call fails.
`h_trim` is the property of the external Markdown converter that makes the
written values non-empty after trimming (real `markdown.markdown` output
wraps non-empty input in tags), and `h_sep` is the spec's delimiter-safety
assumption (generated content never contains the field separator).  Under
them, after one complete run every selected record's rewritten target field
trims non-empty, so a second run over the written-back table selects zero
pending records. -/
theorem pipeline_idempotent
    (client : GenClient) (md : String → String) (now : Int) (db : AnkiDb)
    (nt tf tmpl : String) (rid idx : Nat) (updates : List Update)
    (h_rid : resolve_model db nt = .ok rid)
    (h_idx : (get_field_map db rid).lookup tf = some idx)
    (h_run : compute_updates client md now db nt tf tmpl = .ok updates)
    (h_nofail : ∀ r ∈ select_pending (notes_for_model db rid) idx,
      (process_note_file client md now r.1 r.2 (get_field_map db rid) tf tmpl
        (extract_required_fields tmpl)).isSome = true)
    (h_trim : ∀ prompt : String, generate_content client md prompt ≠ "" →
      py_strip (generate_content client md prompt) ≠ "")
    (h_sep : ∀ prompt : String,
      FIELD_SEP ∉ (generate_content client md prompt).data) :
    select_pending
      (notes_for_model { db with notes := write_back updates db.notes } rid)
      idx = [] := by
  have hupd : updates = (select_pending (notes_for_model db rid) idx).filterMap
      (fun r => process_note_file client md now r.1 r.2 (get_field_map db rid)
        tf tmpl (extract_required_fields tmpl)) := by
    have h := h_run
    simp only [compute_updates, h_rid, h_idx] at h
    cases hfind : (extract_required_fields tmpl).find?
        (fun g => ((get_field_map db rid).lookup g).isNone) with
    | some g =>
      rw [hfind] at h
      cases h
    | none =>
      rw [hfind] at h
      exact (Except.ok.inj h).symm
  have hgood : ∀ u ∈ updates, pending_pred u.flds idx = false := by
    intro u hu
    rw [hupd] at hu
    obtain ⟨r, hr, hru⟩ := List.mem_filterMap.mp hu
    exact update_not_pending client md now (get_field_map db rid) tf tmpl
      (extract_required_fields tmpl) idx r u h_idx hru h_trim h_sep
  have hcov : ∀ n : NoteRow, n ∈ db.notes → n.mid = rid →
      pending_pred n.flds idx = true → ∃ u ∈ updates, u.nid = n.id := by
    intro n hn hmid hpend
    have hrow : (n.id, n.flds) ∈ notes_for_model db rid := by
      simp only [notes_for_model]
      exact List.mem_map.mpr ⟨n, List.mem_filter.mpr ⟨hn, beq_iff_eq.mpr hmid⟩, rfl⟩
    have hsel : (n.id, n.flds) ∈ select_pending (notes_for_model db rid) idx :=
      List.mem_filter.mpr ⟨hrow, hpend⟩
    obtain ⟨u, hu⟩ := Option.isSome_iff_exists.mp (h_nofail _ hsel)
    obtain ⟨hnid, -, -⟩ := process_note_file_some _ _ _ _ _ _ _ _ _ _ hu
    refine ⟨u, ?_, hnid⟩
    rw [hupd]
    exact List.mem_filterMap.mpr ⟨(n.id, n.flds), hsel, hu⟩
  rw [write_back_eq_apply]
  simp only [select_pending, List.filter_eq_nil_iff]
  intro r hr
  simp only [notes_for_model] at hr
  obtain ⟨m, hmf, hmr⟩ := List.mem_map.mp hr
  obtain ⟨hmapp, hmmid⟩ := List.mem_filter.mp hmf
  obtain ⟨k, hk⟩ := List.getElem?_of_mem hmapp
  have hklt : k < db.notes.length := by
    by_contra hlt
    have hnone : (apply_updates updates db.notes)[k]? = none :=
      List.getElem?_eq_none (by rw [apply_updates_length]; omega)
    rw [hnone] at hk
    cases hk
  cases hn : db.notes[k]? with
  | none =>
    have := List.getElem?_eq_none_iff.mp hn
    omega
  | some n =>
    obtain ⟨m', hm', hid, hmid, hdisj⟩ := apply_updates_pointwise updates db.notes k n hn
    have hmm : m' = m := by
      rw [hm'] at hk
      exact Option.some.inj hk
    have hr2 : r.2 = m.flds := by
      rw [← hmr]
    rw [Bool.not_eq_true, hr2]
    by_cases hpend : pending_pred n.flds idx = true
    · have hmidrid : n.mid = rid := by
        rw [← hmid, hmm]
        exact beq_iff_eq.mp hmmid
      obtain ⟨u', hu', -, happly⟩ :=
        apply_updates_covered updates db.notes k n hn (hcov n (List.getElem?_mem hn) hmidrid hpend)
      have hmflds : m.flds = u'.flds := by
        rw [hk] at happly
        rw [Option.some.inj happly]
      rw [hmflds]
      exact hgood u' hu'
    · rcases hdisj with h1 | ⟨u', hu', -, hf, -⟩
      · rw [← hmm, h1]
        exact Bool.not_eq_true _ ▸ hpend
      · rw [← hmm, hf]
        exact hgood u' hu'

/-- Claim C7 (instance): one complete failure-free run over a concrete
two-record database (one pending, one done), after which the second run's
selection is empty. -/
theorem pipeline_idempotent_instance :
    select_pending
      (notes_for_model
        { notetypes := some [(5, "Cloze")]
          col_models := none
          fields := [(5, ("Text", 0)), (5, ("Notes", 2))]
          notes := write_back [{ flds := "x\x1f\x1fok", mod := 9, nid := 1 }]
            [{ id := 1, mid := 5, flds := "x\x1f\x1f", mod := 0 },
              { id := 2, mid := 5, flds := "y\x1f\x1fdone", mod := 0 }] }
        5) 2 = [] :=
  pipeline_idempotent (fun _ => some "ok") (fun s => s) 9
    { notetypes := some [(5, "Cloze")]
      col_models := none
      fields := [(5, ("Text", 0)), (5, ("Notes", 2))]
      notes := [{ id := 1, mid := 5, flds := "x\x1f\x1f", mod := 0 },
        { id := 2, mid := 5, flds := "y\x1f\x1fdone", mod := 0 }] }
    "Cloze" "Notes" "A: {Text}" 5 2
    [{ flds := "x\x1f\x1fok", mod := 9, nid := 1 }]
    rfl rfl rfl (by decide)
    (fun _ _ => by
      change py_strip (py_strip "ok") ≠ ""
      decide)
    (fun _ => by
      change FIELD_SEP ∉ (py_strip "ok").data
      decide)

end AnkiDecks
